import Mathlib

/-!
Stepper motor controller (`src/Code/stepper.c`).

A shallow embedding of the motion-control code of the Pico stepper controller:
the globals of the C file become the fields of `State`, every C function that
touches them becomes a state transformer, and the request buffer becomes a list
of characters (the bytes before the terminating NUL).

C `int` is 32 bits wide on the target. Arithmetic that is applied to a global
(`current_step + 1`, `steps_taken++`) is wrapped with `wrap32`; arithmetic on the
clamped speed percentage cannot leave the `int` range and is left unwrapped.
-/

namespace Stepper

/-! ## Constants -/

def MOTOR_PIN1 : Nat := 2
def MOTOR_PIN2 : Nat := 3
def MOTOR_PIN3 : Nat := 4
def MOTOR_PIN4 : Nat := 5

def MIN_STEP_DELAY_MS : Int := 2
def MAX_STEP_DELAY_MS : Int := 20

def INT_MAX : Int := 2147483647
def INT_MIN : Int := -2147483648

/-- Two's-complement reduction of a mathematical integer to a 32-bit `int`. -/
def wrap32 (x : Int) : Int := (x + 2147483648) % 4294967296 - 2147483648

/-! ## Data model -/

/-- The globals of `stepper.c`, the function-static `steps_taken` of `motor_task`,
and the levels last written to the four motor pins. -/
structure State where
  step_delay_ms : Int
  motor_running : Bool
  current_step : Int
  direction : Bool
  target_steps : Int
  steps_taken : Int
  pin1 : Int
  pin2 : Int
  pin3 : Int
  pin4 : Int
deriving DecidableEq

/-- The state after the global initialisers and `initialize_motor` have run. -/
def init : State :=
  { step_delay_ms := 10, motor_running := false, current_step := 0, direction := true,
    target_steps := 0, steps_taken := 0, pin1 := 0, pin2 := 0, pin3 := 0, pin4 := 0 }

/-- The levels on `MOTOR_PIN1` .. `MOTOR_PIN4`, in that order. -/
def State.pins (s : State) : List Int := [s.pin1, s.pin2, s.pin3, s.pin4]

/-- The table `step_sequence[4][4]`. -/
def step_sequence : List (List Int) :=
  [[1, 0, 0, 1],
   [1, 1, 0, 0],
   [0, 1, 1, 0],
   [0, 0, 1, 1]]

/-- The array read `step_sequence[i][j]`; `none` when an index is out of bounds. -/
def step_sequence_at (i : Int) (j : Nat) : Option Int :=
  if 0 ≤ i then (step_sequence.get? i.toNat).bind (fun row => row.get? j) else none

/-- The SDK call `gpio_put(gpio, value)` restricted to the four motor pins. -/
def gpio_put (gpio : Nat) (value : Int) (s : State) : State :=
  if gpio = MOTOR_PIN1 then { s with pin1 := value }
  else if gpio = MOTOR_PIN2 then { s with pin2 := value }
  else if gpio = MOTOR_PIN3 then { s with pin3 := value }
  else if gpio = MOTOR_PIN4 then { s with pin4 := value }
  else s

/-! ## Motor functions -/

/-- `set_motor_pins(step)`: four table reads, each written to its pin. -/
def set_motor_pins (step : Int) (s : State) : Option State := do
  let v0 ← step_sequence_at step 0
  let s := gpio_put MOTOR_PIN1 v0 s
  let v1 ← step_sequence_at step 1
  let s := gpio_put MOTOR_PIN2 v1 s
  let v2 ← step_sequence_at step 2
  let s := gpio_put MOTOR_PIN3 v2 s
  let v3 ← step_sequence_at step 3
  let s := gpio_put MOTOR_PIN4 v3 s
  pure s

/-- `step_motor()`: advance `current_step` in the current direction, then drive the pins. -/
def step_motor (s : State) : Option State :=
  let s :=
    if s.direction then
      { s with current_step := Int.tmod (wrap32 (s.current_step + 1)) 4 }
    else
      { s with current_step := Int.tmod (wrap32 (s.current_step + 3)) 4 }
  set_motor_pins s.current_step s

/-- `start_motor(steps, clockwise, speed)`. -/
def start_motor (steps : Int) (clockwise : Bool) (speed : Int) (s : State) : State :=
  let s := { s with direction := clockwise }
  let s := { s with step_delay_ms := speed }
  let s := { s with target_steps := steps }
  { s with motor_running := true }

/-- `stop_motor()`. -/
def stop_motor (s : State) : State :=
  let s := { s with motor_running := false }
  let s := gpio_put MOTOR_PIN1 0 s
  let s := gpio_put MOTOR_PIN2 0 s
  let s := gpio_put MOTOR_PIN3 0 s
  gpio_put MOTOR_PIN4 0 s

/-- `motor_task()`. -/
def motor_task (s : State) : Option State :=
  if s.motor_running then do
    let s ← step_motor s
    if s.target_steps > 0 then
      let s := { s with steps_taken := wrap32 (s.steps_taken + 1) }
      if s.steps_taken ≥ s.target_steps then
        let s := { s with steps_taken := 0 }
        pure (stop_motor s)
      else pure s
    else pure s
  else pure s

/-- The state after `k` successive calls of `motor_task`. -/
def motor_task_n : Nat → State → Option State
  | 0, s => some s
  | k + 1, s => (motor_task s).bind (motor_task_n k)

/-! ## C string functions used by the request handler -/

/-- The C library `strncmp(a, b, n)` on NUL-terminated strings given as the
characters before the terminator (the end of a list reads as NUL). -/
def strncmp : List Char → List Char → Nat → Int
  | _, _, 0 => 0
  | [], [], _ + 1 => 0
  | [], b :: _, _ + 1 => -(b.toNat : Int)
  | a :: _, [], _ + 1 => (a.toNat : Int)
  | a :: as, b :: bs, n + 1 =>
    if a = b then strncmp as bs n else (a.toNat : Int) - (b.toNat : Int)

/-- The C library `strstr(haystack, needle)`: the suffix of `haystack` that starts
at the first occurrence of `needle`, or `none` (NULL). -/
def strstr : List Char → List Char → Option (List Char)
  | [], needle => if needle = [] then some [] else none
  | c :: cs, needle =>
    if needle.isPrefixOf (c :: cs) then some (c :: cs) else strstr cs needle

def isspace (c : Char) : Bool :=
  c = ' ' || c = '\t' || c = '\n' || c = '\x0b' || c = '\x0c' || c = '\r'

def isdigit (c : Char) : Bool := '0' ≤ c && c ≤ '9'

/-- The digits at the head of the string, accumulated in base ten. -/
def atoi_digits : Int → List Char → Int
  | acc, [] => acc
  | acc, c :: cs =>
    if isdigit c then atoi_digits (acc * 10 + ((c.toNat : Int) - 48)) cs else acc

/-- The C library `atoi`: skip white space, read an optional sign and the decimal
digits that follow, stop at the first other character (no digits gives 0). The
value is saturated to the `int` range, as `strtol` does on the 32-bit target. -/
def atoi (s : List Char) : Int :=
  let v : Int :=
    match s.dropWhile isspace with
    | '-' :: r => -(atoi_digits 0 r)
    | '+' :: r => atoi_digits 0 r
    | r => atoi_digits 0 r
  max INT_MIN (min INT_MAX v)

/-- The text has no number at its head for `atoi` to read: after the leading white space
comes neither a digit nor a sign followed by a digit. -/
def no_leading_number (s : List Char) : Bool :=
  match s.dropWhile isspace with
  | [] => true
  | c :: r =>
    if c = '-' ∨ c = '+' then
      match r with
      | [] => true
      | d :: _ => !isdigit d
    else !isdigit c

/-! ## Request handler -/

/-- The expression `MAX_STEP_DELAY_MS - ((speed_percent - 1) * (MAX_STEP_DELAY_MS -
MIN_STEP_DELAY_MS)) / 99` that both motion branches of `http_get_handler` assign to
`delay`; C division truncates. -/
def speed_to_delay (speed_percent : Int) : Int :=
  MAX_STEP_DELAY_MS -
    Int.tdiv ((speed_percent - 1) * (MAX_STEP_DELAY_MS - MIN_STEP_DELAY_MS)) 99

/-- What `http_get_handler` writes back on the connection. -/
inductive Reply where
  | status_ok
  | index_html
  | nothing
deriving DecidableEq

/-- `http_get_handler`, as a function of the motor state and the request bytes;
the result is the new motor state and the reply written with `tcp_write`. -/
def http_get_handler (st : State) (data : List Char) : State × Reply :=
  if strncmp data "GET ".toList 4 = 0 then
    if strncmp (data.drop 4) "/motor".toList 6 = 0 then
      let cmd_ptr := strstr data "cmd=".toList
      let speed_ptr := strstr data "speed=".toList
      let steps_ptr := strstr data "steps=".toList
      let st :=
        match cmd_ptr with
        | some cmd =>
          if strncmp (cmd.drop 4) "cw".toList 2 = 0 then
            let speed_percent : Int :=
              match speed_ptr with
              | some sp =>
                let v := atoi (sp.drop 6)
                let v := if v < 1 then 1 else v
                if v > 100 then 100 else v
              | none => 50
            let delay : Int := speed_to_delay speed_percent
            let steps : Int :=
              match steps_ptr with
              | some sp =>
                let v := atoi (sp.drop 6)
                if v < 0 then 0 else v
              | none => 0
            start_motor steps true delay st
          else if strncmp (cmd.drop 4) "ccw".toList 3 = 0 then
            let speed_percent : Int :=
              match speed_ptr with
              | some sp =>
                let v := atoi (sp.drop 6)
                let v := if v < 1 then 1 else v
                if v > 100 then 100 else v
              | none => 50
            let delay : Int := speed_to_delay speed_percent
            let steps : Int :=
              match steps_ptr with
              | some sp =>
                let v := atoi (sp.drop 6)
                if v < 0 then 0 else v
              | none => 0
            start_motor steps false delay st
          else if strncmp (cmd.drop 4) "stop".toList 4 = 0 then
            stop_motor st
          else st
        | none => st
      (st, Reply.status_ok)
    else
      (st, Reply.index_html)
  else
    (st, Reply.nothing)

/-! ## Reachable states -/

/-- The states the program can be in: the initial state, and every state that follows a
reachable one by a request handled by `http_get_handler` or by a call of `motor_task`
from the main loop. -/
inductive Reachable : State → Prop where
  | init : Reachable init
  | request (s : State) (data : List Char) :
      Reachable s → Reachable (http_get_handler s data).1
  | task (s s' : State) : Reachable s → motor_task s = some s' → Reachable s'

/-- The states that follow the initial state by calls of the four motor functions, with
any arguments to `start_motor`. -/
inductive CallReachable : State → Prop where
  | init : CallReachable init
  | start (s : State) (steps : Int) (clockwise : Bool) (speed : Int) :
      CallReachable s → CallReachable (start_motor steps clockwise speed s)
  | stop (s : State) : CallReachable s → CallReachable (stop_motor s)
  | step (s s' : State) : CallReachable s → step_motor s = some s' → CallReachable s'
  | task (s s' : State) : CallReachable s → motor_task s = some s' → CallReachable s'

/-- The states that follow the initial state by calls of `start_motor` with an `int` step
count that is not negative (what `http_get_handler` passes), `stop_motor` and
`motor_task`. -/
inductive RunReachable : State → Prop where
  | init : RunReachable init
  | start (s : State) (steps : Int) (clockwise : Bool) (speed : Int) :
      0 ≤ steps → steps ≤ INT_MAX → RunReachable s →
      RunReachable (start_motor steps clockwise speed s)
  | stop (s : State) : RunReachable s → RunReachable (stop_motor s)
  | task (s s' : State) : RunReachable s → motor_task s = some s' → RunReachable s'

/-! ## Auxiliary lemmas -/

theorem wrap32_eq_self (x : Int) (h1 : -2147483648 ≤ x) (h2 : x ≤ 2147483647) :
    wrap32 x = x := by
  unfold wrap32
  omega

/-- Every field but the pins survives `set_motor_pins`. -/
theorem set_motor_pins_frame (step : Int) (s s' : State) (h : set_motor_pins step s = some s') :
    ∃ a b c d, s' = { s with pin1 := a, pin2 := b, pin3 := c, pin4 := d } := by
  unfold set_motor_pins at h
  simp only [Option.bind_eq_bind, Option.bind_eq_some, Option.pure_def, Option.some.injEq] at h
  obtain ⟨a, -, b, -, c, -, d, -, rfl⟩ := h
  exact ⟨a, b, c, d, rfl⟩

/-- The fields `step_motor` leaves alone, whenever it returns. -/
theorem step_motor_frame (s s' : State) (h : step_motor s = some s') :
    s'.motor_running = s.motor_running ∧ s'.direction = s.direction ∧
    s'.step_delay_ms = s.step_delay_ms ∧ s'.target_steps = s.target_steps ∧
    s'.steps_taken = s.steps_taken := by
  unfold step_motor at h
  obtain ⟨a, b, c, d, rfl⟩ := set_motor_pins_frame _ _ _ h
  cases hd : s.direction <;> simp [hd]

/-- From an index in [0,3] `step_motor` returns: the index moves by +1 or +3 modulo 4 and
the pins take the table row of the new index. -/
theorem step_motor_ok (s : State) (h0 : 0 ≤ s.current_step) (h3 : s.current_step ≤ 3) :
    ∃ s', step_motor s = some s' ∧
      s'.current_step = (s.current_step + (if s.direction then 1 else 3)) % 4 ∧
      0 ≤ s'.current_step ∧ s'.current_step ≤ 3 ∧
      step_sequence.get? s'.current_step.toNat = some s'.pins := by
  obtain ⟨dl, run, cs, dir, tg, tk, p1, p2, p3, p4⟩ := s
  have hcs : cs = 0 ∨ cs = 1 ∨ cs = 2 ∨ cs = 3 := by
    simp only at h0 h3
    omega
  rcases hcs with rfl | rfl | rfl | rfl <;> cases dir <;>
    exact ⟨_, rfl, rfl, of_decide_eq_true rfl, of_decide_eq_true rfl, rfl⟩

/-- An idle `motor_task` call changes nothing. -/
theorem motor_task_idle (s : State) (h : s.motor_running = false) : motor_task s = some s := by
  simp [motor_task, h]

/-- The fields `motor_task` leaves alone, whenever it returns. -/
theorem motor_task_frame (s s' : State) (h : motor_task s = some s') :
    s'.direction = s.direction ∧ s'.step_delay_ms = s.step_delay_ms ∧
    s'.target_steps = s.target_steps := by
  unfold motor_task at h
  cases hr : s.motor_running
  · simp [hr] at h
    subst h
    exact ⟨rfl, rfl, rfl⟩
  · simp only [hr, if_true, Option.bind_eq_bind, Option.bind_eq_some] at h
    obtain ⟨t, ht, h⟩ := h
    obtain ⟨-, f2, f3, f4, -⟩ := step_motor_frame s t ht
    rw [← f2, ← f3, ← f4]
    split_ifs at h <;> simp only [Option.pure_def, Option.some.injEq] at h <;> subst h <;>
      exact ⟨rfl, rfl, rfl⟩

/-- A running call in continuous mode (`target_steps = 0`) is one `step_motor`. -/
theorem motor_task_continuous (s : State) (hr : s.motor_running = true)
    (ht : s.target_steps = 0) : motor_task s = step_motor s := by
  unfold motor_task
  simp only [hr, if_true, Option.bind_eq_bind]
  cases h : step_motor s with
  | none => rfl
  | some t =>
    obtain ⟨-, -, -, f4, -⟩ := step_motor_frame s t h
    simp [f4, ht]

/-- A running call of a bounded run that has not yet reached its target: one step is
taken and counted, and the motor keeps running. -/
theorem motor_task_progress (s : State) (hr : s.motor_running = true)
    (h0 : 0 ≤ s.current_step) (h3 : s.current_step ≤ 3)
    (hk : 0 ≤ s.steps_taken) (hlt : s.steps_taken + 1 < s.target_steps)
    (hT : s.target_steps ≤ INT_MAX) :
    ∃ s', motor_task s = some s' ∧ s'.motor_running = true ∧
      s'.steps_taken = s.steps_taken + 1 ∧ s'.target_steps = s.target_steps ∧
      0 ≤ s'.current_step ∧ s'.current_step ≤ 3 := by
  obtain ⟨t, ht, -, c0, c3, -⟩ := step_motor_ok s h0 h3
  obtain ⟨f1, -, -, f4, f5⟩ := step_motor_frame s t ht
  have hw : wrap32 (t.steps_taken + 1) = s.steps_taken + 1 := by
    unfold INT_MAX at hT
    rw [f5]
    exact wrap32_eq_self _ (by omega) (by omega)
  have hpos : t.target_steps > 0 := by omega
  have hnot : ¬ (s.steps_taken + 1 ≥ t.target_steps) := by omega
  refine ⟨{ t with steps_taken := s.steps_taken + 1 }, ?_, ?_, rfl, f4, c0, c3⟩
  · unfold motor_task
    simp only [hr, if_true, ht, Option.bind_eq_bind, Option.some_bind, hpos, hw, hnot,
      if_false, Option.pure_def]
  · simp [f1, hr]

/-- A running call of a bounded run whose counter reaches the target: the step is taken,
the counter is cleared and `stop_motor` runs. -/
theorem motor_task_finish (s : State) (hr : s.motor_running = true)
    (h0 : 0 ≤ s.current_step) (h3 : s.current_step ≤ 3)
    (hpos : 0 < s.target_steps)
    (hk : -1 ≤ s.steps_taken) (hK : s.steps_taken < INT_MAX)
    (hge : s.target_steps ≤ s.steps_taken + 1) :
    ∃ s', motor_task s = some s' ∧ s'.motor_running = false ∧ s'.pins = [0, 0, 0, 0] ∧
      s'.steps_taken = 0 ∧ s'.target_steps = s.target_steps ∧
      0 ≤ s'.current_step ∧ s'.current_step ≤ 3 := by
  obtain ⟨t, ht, -, c0, c3, -⟩ := step_motor_ok s h0 h3
  obtain ⟨-, -, -, f4, f5⟩ := step_motor_frame s t ht
  have hw : wrap32 (t.steps_taken + 1) = s.steps_taken + 1 := by
    unfold INT_MAX at hK
    rw [f5]
    exact wrap32_eq_self _ (by omega) (by omega)
  have hpos' : t.target_steps > 0 := by omega
  have hge' : s.steps_taken + 1 ≥ t.target_steps := by omega
  refine ⟨stop_motor { t with steps_taken := 0 }, ?_, rfl, rfl, rfl, f4, c0, c3⟩
  unfold motor_task
  simp only [hr, if_true, ht, Option.bind_eq_bind, Option.some_bind, hpos', hw, hge',
    Option.pure_def]


theorem char_eq_of_toNat_eq {a b : Char} (h : a.toNat = b.toNat) : a = b :=
  Char.ext (UInt32.ext h)

/-- For a literal without NUL, `strncmp(s, lit, strlen(lit)) == 0` says that `s` starts
with `lit`. -/
theorem strncmp_eq_zero_iff (lit : List Char) (hlit : ∀ c ∈ lit, c.toNat ≠ 0) (s : List Char) :
    strncmp s lit lit.length = 0 ↔ lit <+: s := by
  induction lit generalizing s with
  | nil => simp [strncmp]
  | cons b bs ih =>
    have hb : b.toNat ≠ 0 := hlit b (by simp)
    have hbs : ∀ c ∈ bs, c.toNat ≠ 0 := fun c hc => hlit c (by simp [hc])
    cases s with
    | nil => simp [strncmp, hb]
    | cons a as =>
      by_cases hab : a = b
      · subst hab
        simp [strncmp, ih hbs as, List.prefix_cons_inj]
      · have hne : (a.toNat : Int) - (b.toNat : Int) ≠ 0 := by
          intro h
          exact hab (char_eq_of_toNat_eq (by omega))
        have hnp : ¬ (b :: bs <+: a :: as) := by
          intro h
          exact hab (List.cons_prefix_cons.mp h).1.symm
        simp [strncmp, hab, hne, hnp]

theorem strncmp_GET (s : List Char) : strncmp s "GET ".toList 4 = 0 ↔ "GET ".toList <+: s :=
  strncmp_eq_zero_iff "GET ".toList (by decide) s

theorem strncmp_motor (s : List Char) :
    strncmp s "/motor".toList 6 = 0 ↔ "/motor".toList <+: s :=
  strncmp_eq_zero_iff "/motor".toList (by decide) s

theorem strncmp_cw (s : List Char) : strncmp s "cw".toList 2 = 0 ↔ "cw".toList <+: s :=
  strncmp_eq_zero_iff "cw".toList (by decide) s

theorem strncmp_ccw (s : List Char) : strncmp s "ccw".toList 3 = 0 ↔ "ccw".toList <+: s :=
  strncmp_eq_zero_iff "ccw".toList (by decide) s

theorem strncmp_stop (s : List Char) : strncmp s "stop".toList 4 = 0 ↔ "stop".toList <+: s :=
  strncmp_eq_zero_iff "stop".toList (by decide) s

/-- A request line that starts with `GET /motor` passes both tests at the head of the handler. -/
theorem get_motor_split (data : List Char) :
    "GET /motor".toList <+: data ↔
      "GET ".toList <+: data ∧ "/motor".toList <+: data.drop 4 := by
  constructor
  · rintro ⟨t, rfl⟩
    exact ⟨⟨"/motor".toList ++ t, rfl⟩, ⟨t, rfl⟩⟩
  · rintro ⟨⟨t, rfl⟩, ⟨u, hu⟩⟩
    refine ⟨u, ?_⟩
    have : t = "/motor".toList ++ u := by simpa using hu.symm
    subst this
    rfl

theorem cw_not_ccw (s : List Char) (h : "ccw".toList <+: s) : ¬ ("cw".toList <+: s) := by
  rintro ⟨t, rfl⟩
  obtain ⟨u, hu⟩ := h
  simp at hu

theorem clamp_speed_eq (v : Int) :
    (if (if v < 1 then 1 else v) > 100 then 100 else (if v < 1 then 1 else v))
      = min 100 (max 1 v) := by
  simp only [min_def, max_def]
  split_ifs <;> omega

theorem clamp_steps_eq (v : Int) : (if v < 0 then 0 else v) = max 0 v := by
  simp only [max_def]
  split_ifs <;> omega

/-- What the handler does with a `GET /motor` request whose first `cmd=` is followed by
`cw` (`cw = true`) or by `ccw` (`cw = false`). -/
theorem handler_run (st : State) (data p : List Char) (cw : Bool) (s n : Int)
    (hget : "GET /motor".toList <+: data)
    (hcmd : strstr data "cmd=".toList = some p)
    (hname : (if cw then "cw".toList else "ccw".toList) <+: p.drop 4)
    (hs : s = match strstr data "speed=".toList with
      | some q => min 100 (max 1 (atoi (q.drop 6)))
      | none => 50)
    (hn : n = match strstr data "steps=".toList with
      | some q => max 0 (atoi (q.drop 6))
      | none => 0) :
    http_get_handler st data = (start_motor n cw (speed_to_delay s) st, Reply.status_ok) := by
  obtain ⟨h1, h2⟩ := (get_motor_split data).mp hget
  have e1 := (strncmp_GET data).mpr h1
  have e2 := (strncmp_motor (data.drop 4)).mpr h2
  unfold http_get_handler
  simp only [e1, e2, if_true, hcmd]
  cases cw with
  | true =>
    have e3 := (strncmp_cw (p.drop 4)).mpr hname
    simp only [e3, if_true]
    subst hs hn
    cases strstr data "speed=".toList <;> cases strstr data "steps=".toList <;>
      simp only [clamp_speed_eq, clamp_steps_eq]
  | false =>
    have hname2 : "ccw".toList <+: p.drop 4 := hname
    have e3 : strncmp (p.drop 4) "cw".toList 2 ≠ 0 := fun h =>
      cw_not_ccw _ hname2 ((strncmp_cw (p.drop 4)).mp h)
    have e4 := (strncmp_ccw (p.drop 4)).mpr hname2
    simp only [e3, e4, if_true, if_false]
    subst hs hn
    cases strstr data "speed=".toList <;> cases strstr data "steps=".toList <;>
      simp only [clamp_speed_eq, clamp_steps_eq]

theorem clamp_speed_bounds (v : Int) : 1 ≤ min 100 (max 1 v) ∧ min 100 (max 1 v) ≤ 100 := by
  simp only [min_def, max_def]
  split_ifs <;> omega

theorem clamp_speed_low (v : Int) (h : v < 1) : min 100 (max 1 v) = 1 := by
  simp only [min_def, max_def]
  split_ifs <;> omega

theorem clamp_speed_high (v : Int) (h : 100 < v) : min 100 (max 1 v) = 100 := by
  simp only [min_def, max_def]
  split_ifs <;> omega

theorem clamp_steps_nonneg (v : Int) : 0 ≤ max 0 v := by
  simp only [max_def]
  split_ifs <;> omega

theorem speed_to_delay_eq (s : Int) (h1 : 1 ≤ s) :
    speed_to_delay s = 20 - ((s - 1) * 18) / 99 := by
  unfold speed_to_delay MAX_STEP_DELAY_MS MIN_STEP_DELAY_MS
  rw [Int.tdiv_eq_ediv (by nlinarith) (by norm_num)]
  norm_num

theorem motor_task_n_add (a b : Nat) (s : State) :
    motor_task_n (a + b) s = (motor_task_n a s).bind (motor_task_n b) := by
  induction a generalizing s with
  | zero => simp [motor_task_n]
  | succ a ih =>
    rw [Nat.add_right_comm]
    simp only [motor_task_n]
    cases motor_task s with
    | none => rfl
    | some t => simpa using ih t

/-- While a bounded run is short of its target by more than `j` steps, `j` calls of
`motor_task` take `j` steps and leave the motor running. -/
theorem bounded_run_prefix (j : Nat) (s : State) (hr : s.motor_running = true)
    (h0 : 0 ≤ s.current_step) (h3 : s.current_step ≤ 3)
    (hk : 0 ≤ s.steps_taken) (hlt : s.steps_taken + j < s.target_steps)
    (hT : s.target_steps ≤ INT_MAX) :
    ∃ s', motor_task_n j s = some s' ∧ s'.motor_running = true ∧
      s'.steps_taken = s.steps_taken + j ∧ s'.target_steps = s.target_steps ∧
      0 ≤ s'.current_step ∧ s'.current_step ≤ 3 := by
  induction j generalizing s with
  | zero => exact ⟨s, rfl, hr, by simp, rfl, h0, h3⟩
  | succ j ih =>
    obtain ⟨t, ht, tr, tk, tt, t0, t3⟩ :=
      motor_task_progress s hr h0 h3 hk (by push_cast at hlt; omega) hT
    obtain ⟨u, hu, ur, uk, ut, u0, u3⟩ :=
      ih t tr t0 t3 (by omega) (by push_cast at hlt; omega) (by omega)
    refine ⟨u, ?_, ur, ?_, by omega, u0, u3⟩
    · simp [motor_task_n, ht, hu]
    · push_cast
      omega

/-- A bounded run that is `m ≥ 1` steps short of its target keeps running through the
first `m - 1` calls of `motor_task` and is stopped, de-energized and with a cleared
counter, by the `m`-th. -/
theorem bounded_run_stops (m : Nat) (s : State) (hm : 1 ≤ m) (hr : s.motor_running = true)
    (h0 : 0 ≤ s.current_step) (h3 : s.current_step ≤ 3)
    (hk : 0 ≤ s.steps_taken) (heq : s.steps_taken + m = s.target_steps)
    (hT : s.target_steps ≤ INT_MAX) :
    (∀ j, j < m → ∃ s', motor_task_n j s = some s' ∧ s'.motor_running = true) ∧
    ∃ s', motor_task_n m s = some s' ∧ s'.motor_running = false ∧
      s'.pins = [0, 0, 0, 0] ∧ s'.steps_taken = 0 := by
  constructor
  · intro j hj
    obtain ⟨t, ht, tr, -⟩ := bounded_run_prefix j s hr h0 h3 hk (by omega) hT
    exact ⟨t, ht, tr⟩
  · obtain ⟨t, ht, tr, tk, tt, t0, t3⟩ :=
      bounded_run_prefix (m - 1) s hr h0 h3 hk (by omega) hT
    have hT' : t.steps_taken < INT_MAX := by omega
    obtain ⟨u, hu, ur, up, uk, -⟩ :=
      motor_task_finish t tr t0 t3 (by omega) (by omega) hT' (by omega)
    refine ⟨u, ?_, ur, up, uk⟩
    have hm' : m = (m - 1) + 1 := by omega
    rw [hm', motor_task_n_add, ht]
    simp [motor_task_n, hu]

/-- In continuous mode every call of `motor_task` returns with the motor still running. -/
theorem continuous_run (k : Nat) (s : State) (hr : s.motor_running = true)
    (ht : s.target_steps = 0) (h0 : 0 ≤ s.current_step) (h3 : s.current_step ≤ 3) :
    ∃ s', motor_task_n k s = some s' ∧ s'.motor_running = true ∧ s'.target_steps = 0 ∧
      s'.steps_taken = s.steps_taken := by
  induction k generalizing s with
  | zero => exact ⟨s, rfl, hr, ht, rfl⟩
  | succ k ih =>
    obtain ⟨t, hst, -, t0, t3, -⟩ := step_motor_ok s h0 h3
    obtain ⟨f1, -, -, f4, f5⟩ := step_motor_frame s t hst
    obtain ⟨u, hu, ur, ut, uk⟩ := ih t (by rw [f1, hr]) (by rw [f4, ht]) t0 t3
    refine ⟨u, ?_, ur, ut, by rw [uk, f5]⟩
    simp [motor_task_n, motor_task_continuous s hr ht, hst, hu]

theorem atoi_le_INT_MAX (s : List Char) : atoi s ≤ INT_MAX := by
  unfold atoi
  simp only [max_def, min_def, INT_MAX, INT_MIN]
  split_ifs <;> omega

/-- The delay of a speed in [1,100] is within [MIN_STEP_DELAY_MS, MAX_STEP_DELAY_MS]. -/
theorem speed_to_delay_bounds (s : Int) (h1 : 1 ≤ s) (h2 : s ≤ 100) :
    2 ≤ speed_to_delay s ∧ speed_to_delay s ≤ 20 := by
  rw [speed_to_delay_eq s h1]
  omega

/-- The three things `http_get_handler` can do to the motor state: nothing, `stop_motor`,
or `start_motor` with a delay computed from a speed in [1,100] and a step count in
[0, INT_MAX]. -/
theorem handler_cases (st : State) (data : List Char) :
    (http_get_handler st data).1 = st ∨ (http_get_handler st data).1 = stop_motor st ∨
    ∃ (cw : Bool) (s n : Int), 1 ≤ s ∧ s ≤ 100 ∧ 0 ≤ n ∧ n ≤ INT_MAX ∧
      (http_get_handler st data).1 = start_motor n cw (speed_to_delay s) st := by
  have hsp : ∀ o : Option (List Char),
      1 ≤ (match o with
        | some sp => (if (if atoi (sp.drop 6) < 1 then 1 else atoi (sp.drop 6)) > 100 then 100
            else (if atoi (sp.drop 6) < 1 then 1 else atoi (sp.drop 6)))
        | none => (50 : Int)) ∧
      (match o with
        | some sp => (if (if atoi (sp.drop 6) < 1 then 1 else atoi (sp.drop 6)) > 100 then 100
            else (if atoi (sp.drop 6) < 1 then 1 else atoi (sp.drop 6)))
        | none => (50 : Int)) ≤ 100 := by
    intro o
    cases o with
    | none => simp
    | some sp =>
      simp only [clamp_speed_eq]
      exact clamp_speed_bounds _
  have hst : ∀ o : Option (List Char),
      0 ≤ (match o with
        | some sp => (if atoi (sp.drop 6) < 0 then 0 else atoi (sp.drop 6))
        | none => (0 : Int)) ∧
      (match o with
        | some sp => (if atoi (sp.drop 6) < 0 then 0 else atoi (sp.drop 6))
        | none => (0 : Int)) ≤ INT_MAX := by
    intro o
    cases o with
    | none => simp [INT_MAX]
    | some sp =>
      have := atoi_le_INT_MAX (sp.drop 6)
      simp only [INT_MAX] at this ⊢
      split_ifs <;> omega
  unfold http_get_handler
  by_cases g1 : strncmp data "GET ".toList 4 = 0
  · by_cases g2 : strncmp (data.drop 4) "/motor".toList 6 = 0
    · simp only [g1, g2, if_true]
      cases hc : strstr data "cmd=".toList with
      | none => exact Or.inl rfl
      | some cmd =>
        simp only []
        by_cases c1 : strncmp (cmd.drop 4) "cw".toList 2 = 0
        · simp only [c1, if_true]
          exact Or.inr (Or.inr ⟨true, _, _, (hsp _).1, (hsp _).2, (hst _).1, (hst _).2, rfl⟩)
        · by_cases c2 : strncmp (cmd.drop 4) "ccw".toList 3 = 0
          · simp only [c1, c2, if_true, if_false]
            exact Or.inr (Or.inr ⟨false, _, _, (hsp _).1, (hsp _).2, (hst _).1, (hst _).2, rfl⟩)
          · by_cases c3 : strncmp (cmd.drop 4) "stop".toList 4 = 0
            · simp only [c1, c2, c3, if_true, if_false]
              exact Or.inr (Or.inl trivial)
            · simp only [c1, c2, c3, if_false]
              exact Or.inl trivial
    · simp only [g1, g2, if_true, if_false]
      exact Or.inl trivial
  · simp only [g1, if_false]
    exact Or.inl trivial

/-- From an index in [0,3] every `motor_task` call returns, with the index again in [0,3];
a running call moves the index as `step_motor` does. -/
theorem motor_task_ok (s : State) (h0 : 0 ≤ s.current_step) (h3 : s.current_step ≤ 3) :
    ∃ s', motor_task s = some s' ∧ 0 ≤ s'.current_step ∧ s'.current_step ≤ 3 ∧
      (s.motor_running = true →
        s'.current_step = (s.current_step + (if s.direction then 1 else 3)) % 4) := by
  cases hr : s.motor_running
  · exact ⟨s, motor_task_idle s hr, h0, h3, by simp⟩
  · obtain ⟨t, ht, tc, t0, t3, -⟩ := step_motor_ok s h0 h3
    generalize (s.current_step + (if s.direction then 1 else 3)) % 4 = c at tc ⊢
    unfold motor_task
    simp only [hr, if_true, ht, Option.bind_eq_bind, Option.some_bind, Option.pure_def]
    split_ifs
    · exact ⟨_, rfl, t0, t3, fun _ => tc⟩
    · exact ⟨_, rfl, t0, t3, fun _ => tc⟩
    · exact ⟨_, rfl, t0, t3, fun _ => tc⟩

/-- What a `motor_task` call that returns does to the steps-taken counter, as long as the
counter is in `[0, INT_MAX)`: an idle call or a call in continuous mode keeps it, a
running call of a bounded run either clears it or raises it by one to a value below the
target. -/
theorem motor_task_counter (s s' : State) (h : motor_task s = some s')
    (hk0 : 0 ≤ s.steps_taken) (hk : s.steps_taken < INT_MAX) :
    s'.target_steps = s.target_steps ∧
    ((s.motor_running = false ∨ s.target_steps ≤ 0) → s'.steps_taken = s.steps_taken) ∧
    ((s.motor_running = true ∧ 0 < s.target_steps) →
      s'.steps_taken = 0 ∨
      (s'.steps_taken = s.steps_taken + 1 ∧ s.steps_taken + 1 < s.target_steps)) := by
  refine ⟨(motor_task_frame s s' h).2.2, ?_, ?_⟩
  · rintro (hr | ht)
    · rw [motor_task_idle s hr] at h
      cases h
      rfl
    · unfold motor_task at h
      cases hr : s.motor_running
      · simp [hr] at h
        rw [h]
      · simp only [hr, if_true, Option.bind_eq_bind, Option.bind_eq_some] at h
        obtain ⟨t, hst, h⟩ := h
        obtain ⟨-, -, -, f4, f5⟩ := step_motor_frame s t hst
        have hn : ¬ (t.target_steps > 0) := by omega
        simp only [hn, if_false, Option.pure_def, Option.some.injEq] at h
        rw [← h, f5]
  · rintro ⟨hr, ht⟩
    unfold motor_task at h
    simp only [hr, if_true, Option.bind_eq_bind, Option.bind_eq_some] at h
    obtain ⟨t, hst, h⟩ := h
    obtain ⟨-, -, -, f4, f5⟩ := step_motor_frame s t hst
    have hp : t.target_steps > 0 := by omega
    have hw : wrap32 (t.steps_taken + 1) = s.steps_taken + 1 := by
      unfold INT_MAX at hk
      rw [f5]
      exact wrap32_eq_self _ (by omega) (by omega)
    simp only [hp, if_true, hw, Option.pure_def] at h
    split_ifs at h with hge
    · simp only [Option.some.injEq] at h
      left
      rw [← h]
      rfl
    · simp only [Option.some.injEq] at h
      right
      rw [← h]
      exact ⟨rfl, by omega⟩

/-- The counter and the target stay within `int` along `RunReachable`. -/
theorem run_reachable_inv (s : State) (h : RunReachable s) :
    (0 ≤ s.steps_taken ∧ s.steps_taken < INT_MAX) ∧
    (0 ≤ s.target_steps ∧ s.target_steps ≤ INT_MAX) := by
  induction h with
  | init => decide
  | start s n d v n0 nM _ ih => exact ⟨ih.1, n0, nM⟩
  | stop s _ ih => exact ih
  | task s s' _ hs ih =>
    obtain ⟨⟨k0, k1⟩, t0, t1⟩ := ih
    obtain ⟨ft, fidle, frun⟩ := motor_task_counter s s' hs k0 k1
    refine ⟨?_, by rw [ft]; exact ⟨t0, t1⟩⟩
    by_cases hc : s.motor_running = true ∧ 0 < s.target_steps
    · rcases frun hc with e | ⟨e, hlt⟩
      · rw [e]
        decide
      · rw [e]
        constructor <;> omega
    · have hc' : s.motor_running = false ∨ s.target_steps ≤ 0 := by
        by_cases hr : s.motor_running = true
        · right
          have : ¬ (0 < s.target_steps) := fun h => hc ⟨hr, h⟩
          omega
        · left
          simpa using hr
      rw [fidle hc']
      exact ⟨k0, k1⟩

theorem run_reachable_tasks (k : Nat) (s s' : State) (h : RunReachable s)
    (hk : motor_task_n k s = some s') : RunReachable s' := by
  induction k generalizing s with
  | zero =>
    simp only [motor_task_n, Option.some.injEq] at hk
    rw [← hk]
    exact h
  | succ k ih =>
    simp only [motor_task_n, Option.bind_eq_some] at hk
    obtain ⟨t, ht, hk⟩ := hk
    exact ih t (RunReachable.task s t h ht) hk

theorem atoi_digits_no_digit (r : List Char)
    (h : (match r with
      | [] => true
      | d :: _ => !isdigit d) = true) : atoi_digits 0 r = 0 := by
  cases r with
  | nil => rfl
  | cons d t =>
    simp only [Bool.not_eq_true'] at h
    simp [atoi_digits, h]

/-- With no number at the head of the text `atoi` returns 0. -/
theorem atoi_eq_zero (s : List Char) (h : no_leading_number s = true) : atoi s = 0 := by
  unfold no_leading_number at h
  unfold atoi
  cases hd : s.dropWhile isspace with
  | nil => rfl
  | cons c r =>
    rw [hd] at h
    simp only [] at h
    by_cases hm : c = '-'
    · subst hm
      simp only [true_or, if_true] at h
      simp only [atoi_digits_no_digit r h]
      rfl
    · by_cases hp : c = '+'
      · subst hp
        simp only [or_true, if_true] at h
        simp only [atoi_digits_no_digit r h]
        rfl
      · simp only [hm, hp, or_self, if_false, Bool.not_eq_true'] at h
        have e : atoi_digits 0 (c :: r) = 0 := by simp [atoi_digits, h]
        have : (match c :: r with
            | '-' :: r => -(atoi_digits 0 r)
            | '+' :: r => atoi_digits 0 r
            | r => atoi_digits 0 r) = atoi_digits 0 (c :: r) := by
          split
          · rename_i heq
            simp only [List.cons.injEq] at heq
            exact absurd heq.1 hm
          · rename_i heq
            simp only [List.cons.injEq] at heq
            exact absurd heq.1 hp
          · rfl
        simp only [this, e]
        rfl

theorem isdigit_toNat (c : Char) (h : isdigit c = true) : 48 ≤ c.toNat ∧ c.toNat ≤ 57 := by
  unfold isdigit at h
  simp only [Bool.and_eq_true, decide_eq_true_eq] at h
  obtain ⟨h1, h2⟩ := h
  have e1 : ('0' : Char).toNat = 48 := rfl
  have e2 : ('9' : Char).toNat = 57 := rfl
  rw [Char.le_def] at h1 h2
  constructor
  · rw [← e1]; exact h1
  · rw [← e2]; exact h2

theorem isdigit_not_space (c : Char) (h : isdigit c = true) : isspace c = false := by
  obtain ⟨h1, h2⟩ := isdigit_toNat c h
  unfold isspace
  simp only [Bool.or_eq_false_iff, decide_eq_false_iff_not]
  refine ⟨⟨⟨⟨⟨?_, ?_⟩, ?_⟩, ?_⟩, ?_⟩, ?_⟩ <;> intro e <;> subst e <;> revert h1 <;> decide

/-- The leading digits of a text are read in base ten, up to the first character that is
not a digit. -/
theorem atoi_digits_append (ds rest : List Char) (acc : Int)
    (hds : ∀ c ∈ ds, isdigit c = true) (hrest : ∀ c ∈ rest.head?, isdigit c = false) :
    atoi_digits acc (ds ++ rest) =
      acc * 10 ^ ds.length +
        ((Nat.ofDigits 10 ((ds.map (fun c => c.toNat - 48)).reverse) : Nat) : Int) := by
  induction ds generalizing acc with
  | nil =>
    cases rest with
    | nil => simp [atoi_digits]
    | cons d t =>
      have := hrest d (by simp)
      simp [atoi_digits, this]
  | cons c cs ih =>
    have hc := hds c (by simp)
    obtain ⟨h1, h2⟩ := isdigit_toNat c hc
    have hcs : ∀ d ∈ cs, isdigit d = true := fun d hd => hds d (by simp [hd])
    have hstep : atoi_digits acc (c :: cs ++ rest) =
        atoi_digits (acc * 10 + ((c.toNat : Int) - 48)) (cs ++ rest) := by
      show atoi_digits acc (c :: (cs ++ rest)) = _
      rw [atoi_digits, if_pos hc]
    rw [hstep, ih _ hcs]
    simp only [List.map_cons, List.reverse_cons, Nat.ofDigits_append, Nat.ofDigits_singleton,
      List.length_reverse, List.length_map, List.length_cons]
    push_cast [Nat.cast_sub h1]
    ring

/-- A text that begins with decimal digits parses to the number they denote, limited to
`INT_MAX`. -/
theorem atoi_leading_digits (ds rest : List Char) (hne : ds ≠ [])
    (hds : ∀ c ∈ ds, isdigit c = true) (hrest : ∀ c ∈ rest.head?, isdigit c = false) :
    atoi (ds ++ rest) =
      min INT_MAX ((Nat.ofDigits 10 ((ds.map (fun c => c.toNat - 48)).reverse) : Nat) : Int) := by
  cases ds with
  | nil => exact absurd rfl hne
  | cons c cs =>
    have hc := hds c (by simp)
    have hsp := isdigit_not_space c hc
    obtain ⟨h1, h2⟩ := isdigit_toNat c hc
    have hm : c ≠ '-' := by
      intro e; subst e; revert h1; decide
    have hp : c ≠ '+' := by
      intro e; subst e; revert h1; decide
    have hdw : (c :: cs ++ rest).dropWhile isspace = c :: cs ++ rest := by
      show (c :: (cs ++ rest)).dropWhile isspace = _
      rw [List.dropWhile_cons_of_neg (by simp [hsp])]
      rfl
    have hmatch : (match c :: cs ++ rest with
        | '-' :: r => -(atoi_digits 0 r)
        | '+' :: r => atoi_digits 0 r
        | r => atoi_digits 0 r) = atoi_digits 0 (c :: cs ++ rest) := by
      split
      · rename_i heq
        simp only [List.cons_append, List.cons.injEq] at heq
        exact absurd heq.1 hm
      · rename_i heq
        simp only [List.cons_append, List.cons.injEq] at heq
        exact absurd heq.1 hp
      · rfl
    unfold atoi
    simp only [hdw, hmatch, atoi_digits_append (c :: cs) rest 0 hds hrest]
    have hv : (0 : Int) ≤ ((Nat.ofDigits 10
        (((c :: cs).map (fun c => c.toNat - 48)).reverse) : Nat) : Int) := Int.ofNat_nonneg _
    generalize ((Nat.ofDigits 10
        (((c :: cs).map (fun c => c.toNat - 48)).reverse) : Nat) : Int) = v at hv ⊢
    simp only [INT_MAX, INT_MIN, min_def, max_def]
    split_ifs <;> omega

/-! ## Command interpreter: speed, steps and direction of a motion request -/

/-- C1: a `GET /motor` request whose `cmd=` is followed by `cw` or `ccw`, whose speed
resolves to `s` (absent: 50, otherwise the parsed value clamped to [1,100]) and whose
steps resolve to `n` (absent: 0, otherwise the parsed value with negatives raised to 0),
has `1 ≤ s ≤ 100` and `0 ≤ n`, and leaves the motion state with
`step_delay_ms = 20 - ((s - 1) * 18) / 99` (truncating division), `target_steps = n`,
`motor_running = true` and `direction` true exactly for `cw`, every other field as it
was; the request `cmd=cw&speed=50&steps=0` gives clockwise, delay 12, target 0, running. -/
theorem C1_motion_request_sets_state (st : State) (data p : List Char) (cw : Bool) (s n : Int)
    (hget : "GET /motor".toList <+: data)
    (hcmd : strstr data "cmd=".toList = some p)
    (hname : (if cw then "cw".toList else "ccw".toList) <+: p.drop 4)
    (hs : s = match strstr data "speed=".toList with
      | some q => min 100 (max 1 (atoi (q.drop 6)))
      | none => 50)
    (hn : n = match strstr data "steps=".toList with
      | some q => max 0 (atoi (q.drop 6))
      | none => 0) :
    (1 ≤ s ∧ s ≤ 100 ∧ 0 ≤ n) ∧
    http_get_handler st data =
      ({ st with direction := cw, step_delay_ms := 20 - Int.tdiv ((s - 1) * 18) 99,
                 target_steps := n, motor_running := true }, Reply.status_ok) ∧
    http_get_handler st "GET /motor?cmd=cw&speed=50&steps=0 HTTP/1.1".toList =
      ({ st with direction := true, step_delay_ms := 12,
                 target_steps := 0, motor_running := true }, Reply.status_ok) := by
  have hb : 1 ≤ s ∧ s ≤ 100 ∧ 0 ≤ n := by
    subst hs hn
    have := clamp_speed_bounds
    have := clamp_steps_nonneg
    cases strstr data "speed=".toList <;> cases strstr data "steps=".toList <;>
      simp [*]
  refine ⟨hb, ?_, ?_⟩
  · rw [handler_run st data p cw s n hget hcmd hname hs hn]
    rfl
  · rfl

/-- The theorem C1 at the request `cmd=ccw&speed=250&steps=7` in the initial state: the
speed resolves to 100 and the steps to 7. -/
theorem C1_motion_request_sets_state_witness :
    (1 ≤ (100 : Int) ∧ (100 : Int) ≤ 100 ∧ 0 ≤ (7 : Int)) ∧
    http_get_handler init "GET /motor?cmd=ccw&speed=250&steps=7 HTTP/1.1".toList =
      ({ init with direction := false, step_delay_ms := 20 - Int.tdiv ((100 - 1) * 18) 99,
                   target_steps := 7, motor_running := true }, Reply.status_ok) ∧
    http_get_handler init "GET /motor?cmd=cw&speed=50&steps=0 HTTP/1.1".toList =
      ({ init with direction := true, step_delay_ms := 12,
                   target_steps := 0, motor_running := true }, Reply.status_ok) :=
  C1_motion_request_sets_state init "GET /motor?cmd=ccw&speed=250&steps=7 HTTP/1.1".toList
    "cmd=ccw&speed=250&steps=7 HTTP/1.1".toList false 100 7
    (by decide) (by decide) (by decide) (by decide) (by decide)

/-- C2: on speeds `1 ≤ s1 ≤ s2 ≤ 100` the speed-to-delay mapping is non-increasing,
`delay(1) = MAX_STEP_DELAY_MS = 20` and `delay(100) = MIN_STEP_DELAY_MS = 2`. -/
theorem C2_speed_to_delay_antitone (s1 s2 : Int) (h1 : 1 ≤ s1) (h12 : s1 ≤ s2)
    (_h2 : s2 ≤ 100) :
    speed_to_delay s2 ≤ speed_to_delay s1 ∧
    (speed_to_delay 1 = MAX_STEP_DELAY_MS ∧ MAX_STEP_DELAY_MS = 20) ∧
    (speed_to_delay 100 = MIN_STEP_DELAY_MS ∧ MIN_STEP_DELAY_MS = 2) := by
  refine ⟨?_, ⟨by decide, by decide⟩, ⟨by decide, by decide⟩⟩
  rw [speed_to_delay_eq s1 h1, speed_to_delay_eq s2 (by omega)]
  omega

/-- The theorem C2 at the speeds 50 and 51, where the truncated delays are 12 and 11. -/
theorem C2_speed_to_delay_antitone_witness :
    speed_to_delay 51 ≤ speed_to_delay 50 ∧
    (speed_to_delay 1 = MAX_STEP_DELAY_MS ∧ MAX_STEP_DELAY_MS = 20) ∧
    (speed_to_delay 100 = MIN_STEP_DELAY_MS ∧ MIN_STEP_DELAY_MS = 2) :=
  C2_speed_to_delay_antitone 50 51 (by decide) (by decide) (by decide)

/-- C3: take a `cw` or `ccw` request whose speed parameter parses to a value `v` outside
[1,100], and a second request with the same command and the same resolved steps whose
speed parameter parses to the clamped boundary (1 when `v < 1`, 100 when `v > 100`).
From every state both requests give the same result, with delay 20 when `v < 1` and
delay 2 when `v > 100`. -/
theorem C3_out_of_range_speed_is_clamped (st : State) (data data' p p' q q' : List Char)
    (cw : Bool)
    (hget : "GET /motor".toList <+: data) (hget' : "GET /motor".toList <+: data')
    (hcmd : strstr data "cmd=".toList = some p) (hcmd' : strstr data' "cmd=".toList = some p')
    (hname : (if cw then "cw".toList else "ccw".toList) <+: p.drop 4)
    (hname' : (if cw then "cw".toList else "ccw".toList) <+: p'.drop 4)
    (hsteps : (strstr data "steps=".toList).map (fun r => atoi (r.drop 6)) =
      (strstr data' "steps=".toList).map (fun r => atoi (r.drop 6)))
    (hq : strstr data "speed=".toList = some q) (hq' : strstr data' "speed=".toList = some q')
    (hout : atoi (q.drop 6) < 1 ∨ 100 < atoi (q.drop 6))
    (hclamp : atoi (q'.drop 6) = if atoi (q.drop 6) < 1 then 1 else 100) :
    http_get_handler st data = http_get_handler st data' ∧
    (http_get_handler st data).1.step_delay_ms = (if atoi (q.drop 6) < 1 then 20 else 2) := by
  have hn : (match strstr data "steps=".toList with
      | some r => max 0 (atoi (r.drop 6))
      | none => (0 : Int)) =
      (match strstr data' "steps=".toList with
      | some r => max 0 (atoi (r.drop 6))
      | none => (0 : Int)) := by
    revert hsteps
    cases strstr data "steps=".toList <;> cases strstr data' "steps=".toList <;> simp
    intro h
    rw [h]
  have hs : min 100 (max 1 (atoi (q.drop 6))) = min 100 (max 1 (atoi (q'.drop 6))) := by
    rw [hclamp]
    rcases hout with h | h
    · rw [if_pos h, clamp_speed_low _ h]
      decide
    · rw [if_neg (by omega), clamp_speed_high _ h]
      decide
  have e := handler_run st data p cw _ _ hget hcmd hname rfl rfl
  have e' := handler_run st data' p' cw _ _ hget' hcmd' hname' rfl rfl
  rw [hq] at e
  rw [hq'] at e'
  simp only [] at e e'
  rw [← hn, ← hs] at e'
  refine ⟨e.trans e'.symm, ?_⟩
  rw [e]
  show speed_to_delay (min 100 (max 1 (atoi (q.drop 6)))) = _
  rcases hout with h | h
  · rw [clamp_speed_low _ h, if_pos h]
    decide
  · rw [clamp_speed_high _ h, if_neg (by omega)]
    decide

/-- The theorem C3 at `speed=250` against `speed=100`, both `cmd=ccw` with `steps=7`. -/
theorem C3_out_of_range_speed_is_clamped_witness :
    http_get_handler init "GET /motor?cmd=ccw&speed=250&steps=7 HTTP/1.1".toList =
      http_get_handler init "GET /motor?cmd=ccw&speed=100&steps=7 HTTP/1.1".toList ∧
    (http_get_handler init
      "GET /motor?cmd=ccw&speed=250&steps=7 HTTP/1.1".toList).1.step_delay_ms =
      (if atoi ("speed=250&steps=7 HTTP/1.1".toList.drop 6) < 1 then 20 else 2) :=
  C3_out_of_range_speed_is_clamped init
    "GET /motor?cmd=ccw&speed=250&steps=7 HTTP/1.1".toList
    "GET /motor?cmd=ccw&speed=100&steps=7 HTTP/1.1".toList
    "cmd=ccw&speed=250&steps=7 HTTP/1.1".toList
    "cmd=ccw&speed=100&steps=7 HTTP/1.1".toList
    "speed=250&steps=7 HTTP/1.1".toList
    "speed=100&steps=7 HTTP/1.1".toList
    false (by decide) (by decide) (by decide) (by decide) (by decide) (by decide)
    (by decide) (by decide) (by decide) (by decide) (by decide)

/-! ## Motion governor: bounded and continuous runs, stop -/

/-- C4: for every `n ≥ 1` (an `int`), from a state whose steps-taken counter is 0 and whose
phase index is in [0,3], after `start_motor(n, dir, delay)` each of the first `n - 1`
calls of `motor_task` returns with the motor still running, and the `n`-th call returns
with `motor_running = false` and all four outputs at 0. -/
theorem C4_bounded_run_stops_after_n (st : State) (n : Nat) (dir : Bool) (delay : Int)
    (hn : 1 ≤ n) (hN : (n : Int) ≤ INT_MAX) (hzero : st.steps_taken = 0)
    (h0 : 0 ≤ st.current_step) (h3 : st.current_step ≤ 3) :
    (∀ j, j < n → ∃ s', motor_task_n j (start_motor n dir delay st) = some s' ∧
      s'.motor_running = true) ∧
    ∃ s', motor_task_n n (start_motor n dir delay st) = some s' ∧
      s'.motor_running = false ∧ s'.pins = [0, 0, 0, 0] := by
  have h := bounded_run_stops n (start_motor n dir delay st) hn rfl h0 h3
    (by show 0 ≤ st.steps_taken; omega)
    (by show st.steps_taken + (n : Int) = (n : Int); omega) hN
  obtain ⟨ha, s', hs, hr, hp, -⟩ := h
  exact ⟨ha, s', hs, hr, hp⟩

/-- The theorem C4 at `n = 3` from the initial state. -/
theorem C4_bounded_run_stops_after_n_witness :
    (∀ j, j < 3 → ∃ s', motor_task_n j (start_motor (3 : Nat) true 10 init) = some s' ∧
      s'.motor_running = true) ∧
    ∃ s', motor_task_n 3 (start_motor (3 : Nat) true 10 init) = some s' ∧
      s'.motor_running = false ∧ s'.pins = [0, 0, 0, 0] :=
  C4_bounded_run_stops_after_n init 3 true 10 (by decide) (by decide) rfl (by decide)
    (by decide)

/-- C5: from every state with a phase index in [0,3], after `start_motor(0, dir, delay)`
every number `k` of successive `motor_task` calls returns with `motor_running` still true:
a run with `target_steps = 0` never stops by itself. -/
theorem C5_continuous_run_never_stops (st : State) (k : Nat) (dir : Bool) (delay : Int)
    (h0 : 0 ≤ st.current_step) (h3 : st.current_step ≤ 3) :
    ∃ s', motor_task_n k (start_motor 0 dir delay st) = some s' ∧ s'.motor_running = true := by
  obtain ⟨s', hs, hr, -⟩ := continuous_run k (start_motor 0 dir delay st) rfl rfl h0 h3
  exact ⟨s', hs, hr⟩

/-- The theorem C5 at 10000 calls from the initial state. -/
theorem C5_continuous_run_never_stops_witness :
    ∃ s', motor_task_n 10000 (start_motor 0 false 2 init) = some s' ∧
      s'.motor_running = true :=
  C5_continuous_run_never_stops init 10000 false 2 (by decide) (by decide)

/-- C6: in every state `stop_motor` clears `motor_running`, drives the four outputs to 0
and changes nothing else (`target_steps`, the steps-taken counter, `direction`,
`step_delay_ms` and `current_step` keep their values), so a second `stop_motor` changes
nothing; the handler runs exactly `stop_motor` on a `cmd=stop` request. -/
theorem C6_stop_motor_effect (st : State) :
    (stop_motor st).motor_running = false ∧ (stop_motor st).pins = [0, 0, 0, 0] ∧
    ((stop_motor st).target_steps = st.target_steps ∧
      (stop_motor st).steps_taken = st.steps_taken ∧
      (stop_motor st).direction = st.direction ∧
      (stop_motor st).step_delay_ms = st.step_delay_ms ∧
      (stop_motor st).current_step = st.current_step) ∧
    stop_motor (stop_motor st) = stop_motor st ∧
    http_get_handler st "GET /motor?cmd=stop HTTP/1.1".toList =
      (stop_motor st, Reply.status_ok) :=
  ⟨rfl, rfl, ⟨rfl, rfl, rfl, rfl, rfl⟩, rfl, rfl⟩

/-- C7 fails on the code: `start_motor` never touches the steps-taken counter. After
`steps=5` and two calls of `motor_task` the counter is 2; a new `steps=3` request leaves
it at 2, and the run it starts is stopped by its first `motor_task` call, one step
instead of three. -/
theorem C7_start_motor_keeps_counter :
    (∀ (st : State) (n : Int) (dir : Bool) (delay : Int),
      (start_motor n dir delay st).steps_taken = st.steps_taken) ∧
    (motor_task_n 2
        (http_get_handler init "GET /motor?cmd=cw&speed=50&steps=5 HTTP/1.1".toList).1).map
      (fun s =>
        (http_get_handler s "GET /motor?cmd=cw&speed=50&steps=3 HTTP/1.1".toList).1.steps_taken)
      = some 2 ∧
    ((motor_task_n 2
        (http_get_handler init "GET /motor?cmd=cw&speed=50&steps=5 HTTP/1.1".toList).1).bind
      (fun s => motor_task_n 1
        (http_get_handler s "GET /motor?cmd=cw&speed=50&steps=3 HTTP/1.1".toList).1)).map
      (fun s => (s.motor_running, s.target_steps)) = some (false, 3) :=
  ⟨fun _ _ _ _ => rfl, by decide, by decide⟩

/-! ## The delay bound -/

/-- C8: in every state reachable from the initial state (`step_delay_ms = 10`) by requests
handled by `http_get_handler` and calls of `motor_task`,
`MIN_STEP_DELAY_MS ≤ step_delay_ms ≤ MAX_STEP_DELAY_MS`, that is `2 ≤ step_delay_ms ≤ 20`. -/
theorem C8_reachable_delay_in_bounds (s : State) (h : Reachable s) :
    (MIN_STEP_DELAY_MS ≤ s.step_delay_ms ∧ s.step_delay_ms ≤ MAX_STEP_DELAY_MS) ∧
    (2 ≤ s.step_delay_ms ∧ s.step_delay_ms ≤ 20) ∧ init.step_delay_ms = 10 := by
  have key : 2 ≤ s.step_delay_ms ∧ s.step_delay_ms ≤ 20 := by
    induction h with
    | init => decide
    | request s data _ ih =>
      rcases handler_cases s data with e | e | ⟨cw, v, n, v1, v2, -, -, e⟩
      · rw [e]
        exact ih
      · rw [e]
        exact ih
      · rw [e]
        exact speed_to_delay_bounds v v1 v2
    | task s s' _ ht ih =>
      rw [(motor_task_frame s s' ht).2.1]
      exact ih
  exact ⟨key, key, rfl⟩

/-- The theorem C8 at the state reached by a `speed=100` request followed by one
`motor_task` call, where the delay is 2. -/
theorem C8_reachable_delay_in_bounds_witness :
    (MIN_STEP_DELAY_MS ≤ (2 : Int) ∧ (2 : Int) ≤ MAX_STEP_DELAY_MS) ∧
    (2 ≤ (2 : Int) ∧ (2 : Int) ≤ 20) ∧ init.step_delay_ms = 10 :=
  C8_reachable_delay_in_bounds
    { init with step_delay_ms := 2, motor_running := true, current_step := 1,
                pin1 := 1, pin2 := 1, pin3 := 0, pin4 := 0 }
    (Reachable.task
      (http_get_handler init "GET /motor?cmd=cw&speed=100 HTTP/1.1".toList).1 _
      (Reachable.request init "GET /motor?cmd=cw&speed=100 HTTP/1.1".toList Reachable.init)
      (by decide))

/-- C9 as stated fails: the delay argument 1000 passed to `start_motor` is stored as it is,
and 1000 is above `MAX_STEP_DELAY_MS`. -/
theorem C9_start_motor_no_clamp_counterexample :
    ¬ (2 ≤ (start_motor 5 true 1000 init).step_delay_ms ∧
        (start_motor 5 true 1000 init).step_delay_ms ≤ 20) := by
  decide

/-- C9, amended: `start_motor` stores every delay argument unchanged in `step_delay_ms`
(there is no clamp in the governor), so after the call `2 ≤ step_delay_ms ≤ 20` holds
exactly when the argument is within `[MIN_STEP_DELAY_MS, MAX_STEP_DELAY_MS]`. -/
theorem C9_start_motor_stores_delay (st : State) (n : Int) (dir : Bool) (delay : Int) :
    (start_motor n dir delay st).step_delay_ms = delay ∧
    ((2 ≤ (start_motor n dir delay st).step_delay_ms ∧
        (start_motor n dir delay st).step_delay_ms ≤ 20) ↔
      (MIN_STEP_DELAY_MS ≤ delay ∧ delay ≤ MAX_STEP_DELAY_MS)) :=
  ⟨rfl, Iff.rfl⟩

/-! ## Unrecognised commands -/

/-- C10 as stated fails: the command name `cwx` is not `cw`, `ccw` or `stop`, yet the
request starts the motor, because the handler compares only the first two characters. -/
theorem C10_prefix_match_counterexample :
    (http_get_handler init "GET /motor?cmd=cwx HTTP/1.1".toList).1.motor_running = true ∧
    init.motor_running = false := by
  decide

/-- C10, amended: a `GET /motor` request that contains no `cmd=`, or in which the text after
the first `cmd=` does not begin with `cw`, `ccw` or `stop`, leaves the whole motor state
(`motor_running`, `direction`, `step_delay_ms`, `target_steps`, `current_step`, the
counter and the four outputs) unchanged, and is answered with the status reply. -/
theorem C10_unrecognised_command_is_noop (st : State) (data : List Char)
    (hget : "GET /motor".toList <+: data)
    (hname : ∀ p ∈ strstr data "cmd=".toList,
      ¬ ("cw".toList <+: List.drop 4 p) ∧ ¬ ("ccw".toList <+: List.drop 4 p) ∧
      ¬ ("stop".toList <+: List.drop 4 p)) :
    http_get_handler st data = (st, Reply.status_ok) := by
  obtain ⟨h1, h2⟩ := (get_motor_split data).mp hget
  have e1 := (strncmp_GET data).mpr h1
  have e2 := (strncmp_motor (data.drop 4)).mpr h2
  unfold http_get_handler
  simp only [e1, e2, if_true]
  cases hc : strstr data "cmd=".toList with
  | none => rfl
  | some p =>
    obtain ⟨n1, n2, n3⟩ := hname p (by rw [hc]; rfl)
    have c1 : strncmp (p.drop 4) "cw".toList 2 ≠ 0 := fun h => n1 ((strncmp_cw _).mp h)
    have c2 : strncmp (p.drop 4) "ccw".toList 3 ≠ 0 := fun h => n2 ((strncmp_ccw _).mp h)
    have c3 : strncmp (p.drop 4) "stop".toList 4 ≠ 0 := fun h => n3 ((strncmp_stop _).mp h)
    simp only [c1, c2, c3, if_false]

/-- The theorem C10 at the request `cmd=reverse&speed=30` in the initial state. -/
theorem C10_unrecognised_command_is_noop_witness :
    http_get_handler init "GET /motor?cmd=reverse&speed=30 HTTP/1.1".toList =
      (init, Reply.status_ok) :=
  C10_unrecognised_command_is_noop init "GET /motor?cmd=reverse&speed=30 HTTP/1.1".toList
    (by decide) (by decide)

/-! ## Defaults and the step count -/

/-- C11: for a `cw` or `ccw` request, (1) when `speed=` is absent the result is the one of
any request with the same command and the same resolved steps whose speed parses to 50,
and the delay is 12; (2) when `steps=` is absent the result is the one of any request with
the same command and the same resolved speed whose steps parse to 0, and `target_steps`
is 0. -/
theorem C11_absent_parameters_default (st : State) (data data' p p' : List Char) (cw : Bool)
    (hget : "GET /motor".toList <+: data) (hget' : "GET /motor".toList <+: data')
    (hcmd : strstr data "cmd=".toList = some p) (hcmd' : strstr data' "cmd=".toList = some p')
    (hname : (if cw then "cw".toList else "ccw".toList) <+: p.drop 4)
    (hname' : (if cw then "cw".toList else "ccw".toList) <+: p'.drop 4) :
    (∀ q', strstr data "speed=".toList = none → strstr data' "speed=".toList = some q' →
      atoi (q'.drop 6) = 50 →
      (match strstr data "steps=".toList with
        | some r => max 0 (atoi (r.drop 6))
        | none => (0 : Int)) =
      (match strstr data' "steps=".toList with
        | some r => max 0 (atoi (r.drop 6))
        | none => (0 : Int)) →
      http_get_handler st data = http_get_handler st data' ∧
      (http_get_handler st data).1.step_delay_ms = 12) ∧
    (∀ r', strstr data "steps=".toList = none → strstr data' "steps=".toList = some r' →
      atoi (r'.drop 6) = 0 →
      (match strstr data "speed=".toList with
        | some q => min 100 (max 1 (atoi (q.drop 6)))
        | none => (50 : Int)) =
      (match strstr data' "speed=".toList with
        | some q => min 100 (max 1 (atoi (q.drop 6)))
        | none => (50 : Int)) →
      http_get_handler st data = http_get_handler st data' ∧
      (http_get_handler st data).1.target_steps = 0 ∧
      (http_get_handler st data).1.motor_running = true) := by
  have e := handler_run st data p cw _ _ hget hcmd hname rfl rfl
  have e' := handler_run st data' p' cw _ _ hget' hcmd' hname' rfl rfl
  constructor
  · intro q' hq hq' h50 hsteps
    have h50' : min 100 (max 1 (50 : Int)) = 50 := by decide
    rw [hq, hsteps] at e
    rw [hq'] at e'
    simp only [] at e e'
    rw [h50, h50'] at e'
    refine ⟨e.trans e'.symm, ?_⟩
    rw [e]
    rfl
  · intro r' hr hr' h0 hspeed
    have h0' : max 0 (0 : Int) = 0 := by decide
    rw [hr, hspeed] at e
    rw [hr'] at e'
    simp only [] at e e'
    rw [h0, h0'] at e'
    refine ⟨e.trans e'.symm, ?_, ?_⟩ <;> rw [e] <;> rfl

/-- The theorem C11 at `cmd=ccw` with neither parameter against
`cmd=ccw&speed=50&steps=0`. -/
theorem C11_absent_parameters_default_witness :
    (http_get_handler init "GET /motor?cmd=ccw HTTP/1.1".toList =
        http_get_handler init "GET /motor?cmd=ccw&speed=50&steps=0 HTTP/1.1".toList ∧
      (http_get_handler init "GET /motor?cmd=ccw HTTP/1.1".toList).1.step_delay_ms = 12) ∧
    (http_get_handler init "GET /motor?cmd=ccw HTTP/1.1".toList =
        http_get_handler init "GET /motor?cmd=ccw&speed=50&steps=0 HTTP/1.1".toList ∧
      (http_get_handler init "GET /motor?cmd=ccw HTTP/1.1".toList).1.target_steps = 0 ∧
      (http_get_handler init "GET /motor?cmd=ccw HTTP/1.1".toList).1.motor_running = true) :=
  have h := C11_absent_parameters_default init
    "GET /motor?cmd=ccw HTTP/1.1".toList
    "GET /motor?cmd=ccw&speed=50&steps=0 HTTP/1.1".toList
    "cmd=ccw HTTP/1.1".toList
    "cmd=ccw&speed=50&steps=0 HTTP/1.1".toList
    false (by decide) (by decide) (by decide) (by decide) (by decide) (by decide)
  ⟨h.1 "speed=50&steps=0 HTTP/1.1".toList (by decide) (by decide) (by decide) (by decide),
   h.2 "steps=0 HTTP/1.1".toList (by decide) (by decide) (by decide) (by decide)⟩

/-- C12: for a `cw` or `ccw` request whose steps parameter parses to `v`, the resulting
`target_steps` is 0 when `v < 0` and `v` itself when `v ≥ 0`, whatever its size; and
`target_steps ≥ 0` in every state reachable through requests and `motor_task` calls. -/
theorem C12_steps_clamped_below_only (st : State) (data p q : List Char) (cw : Bool)
    (hget : "GET /motor".toList <+: data)
    (hcmd : strstr data "cmd=".toList = some p)
    (hname : (if cw then "cw".toList else "ccw".toList) <+: p.drop 4)
    (hq : strstr data "steps=".toList = some q) :
    ((atoi (q.drop 6) < 0 → (http_get_handler st data).1.target_steps = 0) ∧
      (0 ≤ atoi (q.drop 6) →
        (http_get_handler st data).1.target_steps = atoi (q.drop 6))) ∧
    (∀ s, Reachable s → 0 ≤ s.target_steps) := by
  constructor
  · have e := handler_run st data p cw _ _ hget hcmd hname rfl rfl
    rw [hq] at e
    simp only [] at e
    rw [e]
    constructor
    · intro h
      show max 0 (atoi (q.drop 6)) = 0
      exact max_eq_left (le_of_lt h)
    · intro h
      show max 0 (atoi (q.drop 6)) = atoi (q.drop 6)
      exact max_eq_right h
  · intro s hs
    induction hs with
    | init => decide
    | request s data _ ih =>
      rcases handler_cases s data with e | e | ⟨cw, v, n, -, -, n0, -, e⟩
      · rw [e]
        exact ih
      · rw [e]
        exact ih
      · rw [e]
        exact n0
    | task s s' _ ht ih =>
      rw [(motor_task_frame s s' ht).2.2]
      exact ih

/-- The theorem C12 at the request `cmd=cw&speed=50&steps=100000` in the initial state. -/
theorem C12_steps_clamped_below_only_witness :
    ((atoi ("steps=100000 HTTP/1.1".toList.drop 6) < 0 →
        (http_get_handler init
          "GET /motor?cmd=cw&speed=50&steps=100000 HTTP/1.1".toList).1.target_steps = 0) ∧
      (0 ≤ atoi ("steps=100000 HTTP/1.1".toList.drop 6) →
        (http_get_handler init
          "GET /motor?cmd=cw&speed=50&steps=100000 HTTP/1.1".toList).1.target_steps =
          atoi ("steps=100000 HTTP/1.1".toList.drop 6))) ∧
    (∀ s, Reachable s → 0 ≤ s.target_steps) :=
  C12_steps_clamped_below_only init "GET /motor?cmd=cw&speed=50&steps=100000 HTTP/1.1".toList
    "cmd=cw&speed=50&steps=100000 HTTP/1.1".toList "steps=100000 HTTP/1.1".toList true
    (by decide) (by decide) (by decide) (by decide)

/-! ## Stepper sequencer -/

/-- C13: from `current_step = 0` with direction clockwise, four successive calls of
`step_motor` return and leave `current_step` at 1, 2, 3 and then 0, and after
each call the four outputs hold the `step_sequence` row of the new index. -/
theorem C13_forward_four_steps (st : State) (h0 : st.current_step = 0)
    (hd : st.direction = true) :
    ∃ s1 s2 s3 s4, step_motor st = some s1 ∧ step_motor s1 = some s2 ∧
      step_motor s2 = some s3 ∧ step_motor s3 = some s4 ∧
      (s1.current_step = 1 ∧ s2.current_step = 2 ∧ s3.current_step = 3 ∧
        s4.current_step = 0) ∧
      (step_sequence.get? 1 = some s1.pins ∧ step_sequence.get? 2 = some s2.pins ∧
        step_sequence.get? 3 = some s3.pins ∧ step_sequence.get? 0 = some s4.pins) := by
  obtain ⟨dl, run, cs, dir, tg, tk, p1, p2, p3, p4⟩ := st
  simp only at h0 hd
  subst h0 hd
  exact ⟨_, _, _, _, rfl, rfl, rfl, rfl, ⟨rfl, rfl, rfl, rfl⟩, ⟨rfl, rfl, rfl, rfl⟩⟩

/-- The theorem C13 at the initial state after a clockwise start. -/
theorem C13_forward_four_steps_witness :
    ∃ s1 s2 s3 s4, step_motor (start_motor 0 true 10 init) = some s1 ∧
      step_motor s1 = some s2 ∧ step_motor s2 = some s3 ∧ step_motor s3 = some s4 ∧
      (s1.current_step = 1 ∧ s2.current_step = 2 ∧ s3.current_step = 3 ∧
        s4.current_step = 0) ∧
      (step_sequence.get? 1 = some s1.pins ∧ step_sequence.get? 2 = some s2.pins ∧
        step_sequence.get? 3 = some s3.pins ∧ step_sequence.get? 0 = some s4.pins) :=
  C13_forward_four_steps (start_motor 0 true 10 init) rfl rfl

/-- C14: from `current_step = 0` with direction counter-clockwise, four successive calls of
`step_motor` return and leave `current_step` at 3, 2, 1 and then 0, and after
each call the four outputs hold the `step_sequence` row of the new index. -/
theorem C14_reverse_four_steps (st : State) (h0 : st.current_step = 0)
    (hd : st.direction = false) :
    ∃ s1 s2 s3 s4, step_motor st = some s1 ∧ step_motor s1 = some s2 ∧
      step_motor s2 = some s3 ∧ step_motor s3 = some s4 ∧
      (s1.current_step = 3 ∧ s2.current_step = 2 ∧ s3.current_step = 1 ∧
        s4.current_step = 0) ∧
      (step_sequence.get? 3 = some s1.pins ∧ step_sequence.get? 2 = some s2.pins ∧
        step_sequence.get? 1 = some s3.pins ∧ step_sequence.get? 0 = some s4.pins) := by
  obtain ⟨dl, run, cs, dir, tg, tk, p1, p2, p3, p4⟩ := st
  simp only at h0 hd
  subst h0 hd
  exact ⟨_, _, _, _, rfl, rfl, rfl, rfl, ⟨rfl, rfl, rfl, rfl⟩, ⟨rfl, rfl, rfl, rfl⟩⟩

/-- The theorem C14 at the initial state after a counter-clockwise start. -/
theorem C14_reverse_four_steps_witness :
    ∃ s1 s2 s3 s4, step_motor (start_motor 0 false 10 init) = some s1 ∧
      step_motor s1 = some s2 ∧ step_motor s2 = some s3 ∧ step_motor s3 = some s4 ∧
      (s1.current_step = 3 ∧ s2.current_step = 2 ∧ s3.current_step = 1 ∧
        s4.current_step = 0) ∧
      (step_sequence.get? 3 = some s1.pins ∧ step_sequence.get? 2 = some s2.pins ∧
        step_sequence.get? 1 = some s3.pins ∧ step_sequence.get? 0 = some s4.pins) :=
  C14_reverse_four_steps (start_motor 0 false 10 init) rfl rfl

/-- C16: in every state with a phase index in [0,3], running or not, `start_motor(n, d,
delay)` sets `direction`, `step_delay_ms` and `target_steps` to `d`, `delay` and `n`, sets
`motor_running`, and leaves `current_step` and the outputs as they were; the next
`motor_task` call returns with `current_step` moved by +1 modulo 4 when `d` is clockwise
and by +3 modulo 4 when it is not, whatever the direction was before. -/
theorem C16_start_takes_effect_on_next_tick (st : State) (n : Int) (d : Bool) (delay : Int)
    (h0 : 0 ≤ st.current_step) (h3 : st.current_step ≤ 3) :
    ((start_motor n d delay st).direction = d ∧
      (start_motor n d delay st).step_delay_ms = delay ∧
      (start_motor n d delay st).target_steps = n ∧
      (start_motor n d delay st).motor_running = true ∧
      (start_motor n d delay st).current_step = st.current_step ∧
      (start_motor n d delay st).pins = st.pins) ∧
    ∃ s', motor_task (start_motor n d delay st) = some s' ∧
      s'.current_step = (st.current_step + (if d then 1 else 3)) % 4 := by
  refine ⟨⟨rfl, rfl, rfl, rfl, rfl, rfl⟩, ?_⟩
  obtain ⟨s', hs, -, -, hc⟩ := motor_task_ok (start_motor n d delay st) h0 h3
  exact ⟨s', hs, hc rfl⟩

/-- The theorem C16 at a reversal: the motor runs clockwise at index 2 and is restarted
counter-clockwise. -/
theorem C16_start_takes_effect_on_next_tick_witness :
    ((start_motor 0 false 5 { init with motor_running := true, current_step := 2 }).direction
        = false ∧
      (start_motor 0 false 5
        { init with motor_running := true, current_step := 2 }).step_delay_ms = 5 ∧
      (start_motor 0 false 5
        { init with motor_running := true, current_step := 2 }).target_steps = 0 ∧
      (start_motor 0 false 5
        { init with motor_running := true, current_step := 2 }).motor_running = true ∧
      (start_motor 0 false 5
        { init with motor_running := true, current_step := 2 }).current_step = 2 ∧
      (start_motor 0 false 5 { init with motor_running := true, current_step := 2 }).pins =
        State.pins { init with motor_running := true, current_step := 2 }) ∧
    ∃ s', motor_task
        (start_motor 0 false 5 { init with motor_running := true, current_step := 2 })
        = some s' ∧
      s'.current_step = (2 + (if false then 1 else 3)) % 4 :=
  C16_start_takes_effect_on_next_tick { init with motor_running := true, current_step := 2 }
    0 false 5 (by decide) (by decide)

/-- C18: in every state that follows the initial state by calls of `start_motor`,
`stop_motor`, `step_motor` and `motor_task`, `0 ≤ current_step ≤ 3`; every read
`step_sequence[current_step][j]` with `j < 4` is in bounds, and the next `step_motor` and
`motor_task` calls return, so the out-of-bounds branch of the table read is never taken. -/
theorem C18_current_step_in_range (s : State) (h : CallReachable s) :
    (0 ≤ s.current_step ∧ s.current_step ≤ 3) ∧
    (∀ j, j < 4 → (step_sequence_at s.current_step j).isSome = true) ∧
    (∃ s', set_motor_pins s.current_step s = some s') ∧
    (∃ s', step_motor s = some s') ∧ (∃ s', motor_task s = some s') := by
  have key : 0 ≤ s.current_step ∧ s.current_step ≤ 3 := by
    induction h with
    | init => decide
    | start s n d v _ ih => exact ih
    | stop s _ ih => exact ih
    | step s s' _ hs ih =>
      obtain ⟨t, ht, -, t0, t3, -⟩ := step_motor_ok s ih.1 ih.2
      rw [hs] at ht
      cases ht
      exact ⟨t0, t3⟩
    | task s s' _ hs ih =>
      obtain ⟨t, ht, t0, t3, -⟩ := motor_task_ok s ih.1 ih.2
      rw [hs] at ht
      cases ht
      exact ⟨t0, t3⟩
  obtain ⟨k0, k3⟩ := key
  refine ⟨⟨k0, k3⟩, ?_, ?_, ?_, ?_⟩
  · have hcs : s.current_step = 0 ∨ s.current_step = 1 ∨ s.current_step = 2 ∨
        s.current_step = 3 := by omega
    intro j hj
    have hj' : j = 0 ∨ j = 1 ∨ j = 2 ∨ j = 3 := by omega
    rcases hcs with e | e | e | e <;> rw [e] <;>
      rcases hj' with rfl | rfl | rfl | rfl <;> rfl
  · have hcs : s.current_step = 0 ∨ s.current_step = 1 ∨ s.current_step = 2 ∨
        s.current_step = 3 := by omega
    rcases hcs with e | e | e | e <;> rw [e] <;> exact ⟨_, rfl⟩
  · obtain ⟨t, ht, -⟩ := step_motor_ok s k0 k3
    exact ⟨t, ht⟩
  · obtain ⟨t, ht, -⟩ := motor_task_ok s k0 k3
    exact ⟨t, ht⟩

/-- The theorem C18 at the state after a clockwise start and one `step_motor` call. -/
theorem C18_current_step_in_range_witness :
    (0 ≤ (1 : Int) ∧ (1 : Int) ≤ 3) ∧
    (∀ j, j < 4 → (step_sequence_at 1 j).isSome = true) ∧
    (∃ s', set_motor_pins 1
      { init with motor_running := true, current_step := 1, pin1 := 1, pin2 := 1 }
      = some s') ∧
    (∃ s', step_motor
      { init with motor_running := true, current_step := 1, pin1 := 1, pin2 := 1 }
      = some s') ∧
    (∃ s', motor_task
      { init with motor_running := true, current_step := 1, pin1 := 1, pin2 := 1 }
      = some s') :=
  C18_current_step_in_range
    { init with motor_running := true, current_step := 1, pin1 := 1, pin2 := 1 }
    (CallReachable.step (start_motor 0 true 10 init) _
      (CallReachable.start init 0 true 10 CallReachable.init) (by decide))

/-- C19: `step_sequence` has exactly 4 patterns; each has exactly 4 levels, all 0 or 1,
exactly two of them 1 (so none is the de-energized pattern); the 4 patterns are pairwise
distinct; and for every index `i` in [0,3] the patterns at `i` and `(i + 1) mod 4` have
exactly one line energized in both. -/
theorem C19_phase_table_commutation_cycle :
    step_sequence.length = 4 ∧
    (∀ row ∈ step_sequence, row.length = 4 ∧ (∀ v ∈ row, v = 0 ∨ v = 1) ∧
      row.count 1 = 2 ∧ row ≠ [0, 0, 0, 0]) ∧
    step_sequence.Nodup ∧
    (∀ i, i < 4 →
      ((step_sequence.getD i []).zip (step_sequence.getD ((i + 1) % 4) [])).count (1, 1)
        = 1) := by
  decide

/-! ## The steps-taken counter -/

/-- C20 as stated fails for an idle call: after `start_motor(5)`, three `motor_task`
calls, `start_motor(2)` and `stop_motor`, the counter is 3 and the target is 2; the next
`motor_task` call is made with `target_steps > 0`, does nothing because the motor is
idle, and leaves the counter above the target. -/
theorem C20_idle_call_counterexample :
    ∃ s s', RunReachable s ∧ 0 < s.target_steps ∧ motor_task s = some s' ∧
      s'.steps_taken = 3 ∧ s'.target_steps = 2 ∧ ¬ (s'.steps_taken < s'.target_steps) := by
  refine ⟨stop_motor (start_motor 2 true 10
      { init with motor_running := true, current_step := 3, target_steps := 5,
                  steps_taken := 3, pin3 := 1, pin4 := 1 }), _, ?_, by decide, rfl, rfl, rfl,
    by decide⟩
  apply RunReachable.stop
  apply RunReachable.start _ _ _ _ (by decide) (by decide)
  exact run_reachable_tasks 3 (start_motor 5 true 10 init) _
    (RunReachable.start init 5 true 10 (by decide) (by decide) RunReachable.init) (by decide)

/-- C20, amended: in every state that follows the initial state by calls of `start_motor`
(with an `int` step count `≥ 0`), `stop_motor` and `motor_task`, the counter satisfies
`0 ≤ steps_taken < INT_MAX = 2^31 - 1`, so `steps_taken + 1` does not wrap; and
immediately after a `motor_task` call made while the motor is running with
`target_steps > 0` the counter is strictly less than `target_steps`. -/
theorem C20_counter_never_overflows (s : State) (h : RunReachable s) :
    (0 ≤ s.steps_taken ∧ s.steps_taken < INT_MAX ∧ INT_MAX = 2 ^ 31 - 1) ∧
    wrap32 (s.steps_taken + 1) = s.steps_taken + 1 ∧
    (∀ s', s.motor_running = true → 0 < s.target_steps → motor_task s = some s' →
      s'.steps_taken < s'.target_steps) := by
  obtain ⟨⟨k0, k1⟩, -, -⟩ := run_reachable_inv s h
  refine ⟨⟨k0, k1, by decide⟩, ?_, ?_⟩
  · unfold INT_MAX at k1
    exact wrap32_eq_self _ (by omega) (by omega)
  · intro s' hr ht hs
    obtain ⟨ft, -, frun⟩ := motor_task_counter s s' hs k0 k1
    rw [ft]
    rcases frun ⟨hr, ht⟩ with e | ⟨e, hlt⟩
    · rw [e]
      exact ht
    · rw [e]
      exact hlt

/-- The theorem C20 at the state after `start_motor(5)` and three `motor_task` calls. -/
theorem C20_counter_never_overflows_witness :
    (0 ≤ (3 : Int) ∧ (3 : Int) < INT_MAX ∧ INT_MAX = 2 ^ 31 - 1) ∧
    wrap32 ((3 : Int) + 1) = 3 + 1 ∧
    (∀ s', true = true → 0 < (5 : Int) →
      motor_task { init with motor_running := true, current_step := 3, target_steps := 5,
                             steps_taken := 3, pin3 := 1, pin4 := 1 } = some s' →
      s'.steps_taken < s'.target_steps) :=
  C20_counter_never_overflows
    { init with motor_running := true, current_step := 3, target_steps := 5,
                steps_taken := 3, pin3 := 1, pin4 := 1 }
    (run_reachable_tasks 3 (start_motor 5 true 10 init) _
      (RunReachable.start init 5 true 10 (by decide) (by decide) RunReachable.init)
      (by decide))

/-! ## Malformed numeric text -/

/-- C17 as stated fails: the speed value `12abc` and the steps value `7x` are not decimal
integer strings, yet `atoi` reads their leading digits, so the request resolves to speed
12 (delay 18) and `target_steps = 7`, not to speed 1 (delay 20) and 0. -/
theorem C17_leading_digits_counterexample :
    atoi "12abc".toList = 12 ∧ atoi "7x".toList = 7 ∧
    (http_get_handler init
      "GET /motor?cmd=cw&speed=12abc&steps=7x HTTP/1.1".toList).1.step_delay_ms = 18 ∧
    (http_get_handler init
      "GET /motor?cmd=cw&speed=12abc&steps=7x HTTP/1.1".toList).1.target_steps = 7 := by
  decide

/-- C17, amended: for every text that has no number at its head (after leading white space
comes neither a digit nor a sign followed by a digit) `atoi` yields 0, so in a `cw` or
`ccw` request such a speed value resolves to the clamped speed 1 (delay 20) and such a
steps value resolves to `target_steps = 0`; a text that begins with decimal digits `ds`
followed by a character that is not a digit (or by nothing) parses to the number that
`ds` denotes in base ten, limited to `INT_MAX`, and the request uses that number: it is
the target for steps, and clamped to [1,100] it is the speed. -/
theorem C17_text_without_number_parses_zero (st : State) (data p : List Char) (cw : Bool)
    (hget : "GET /motor".toList <+: data)
    (hcmd : strstr data "cmd=".toList = some p)
    (hname : (if cw then "cw".toList else "ccw".toList) <+: p.drop 4) :
    ((∀ s, no_leading_number s = true → atoi s = 0) ∧
      (∀ q, strstr data "speed=".toList = some q → no_leading_number (q.drop 6) = true →
        (http_get_handler st data).1.step_delay_ms = 20) ∧
      (∀ r, strstr data "steps=".toList = some r → no_leading_number (r.drop 6) = true →
        (http_get_handler st data).1.target_steps = 0)) ∧
    ((∀ ds rest : List Char, ds ≠ [] → (∀ c ∈ ds, isdigit c = true) →
        (∀ c ∈ rest.head?, isdigit c = false) →
        atoi (ds ++ rest) =
          min INT_MAX
            ((Nat.ofDigits 10 ((ds.map (fun c => c.toNat - 48)).reverse) : Nat) : Int)) ∧
      (∀ q ds rest, strstr data "speed=".toList = some q → q.drop 6 = ds ++ rest →
        ds ≠ [] → (∀ c ∈ ds, isdigit c = true) → (∀ c ∈ rest.head?, isdigit c = false) →
        (http_get_handler st data).1.step_delay_ms =
          speed_to_delay (min 100 (max 1 (min INT_MAX
            ((Nat.ofDigits 10 ((ds.map (fun c => c.toNat - 48)).reverse) : Nat) : Int))))) ∧
      (∀ r ds rest, strstr data "steps=".toList = some r → r.drop 6 = ds ++ rest →
        ds ≠ [] → (∀ c ∈ ds, isdigit c = true) → (∀ c ∈ rest.head?, isdigit c = false) →
        (http_get_handler st data).1.target_steps =
          min INT_MAX
            ((Nat.ofDigits 10 ((ds.map (fun c => c.toNat - 48)).reverse) : Nat) : Int))) := by
  have e := handler_run st data p cw _ _ hget hcmd hname rfl rfl
  refine ⟨⟨atoi_eq_zero, ?_, ?_⟩, ⟨atoi_leading_digits, ?_, ?_⟩⟩
  · intro q hq hmal
    rw [hq] at e
    simp only [] at e
    rw [atoi_eq_zero _ hmal] at e
    rw [e]
    rfl
  · intro r hr hmal
    rw [hr] at e
    simp only [] at e
    rw [atoi_eq_zero _ hmal] at e
    rw [e]
    rfl
  · intro q ds rest hq hsplit hne hds hrest
    rw [hq] at e
    simp only [] at e
    rw [hsplit, atoi_leading_digits ds rest hne hds hrest] at e
    rw [e]
    rfl
  · intro r ds rest hr hsplit hne hds hrest
    rw [hr] at e
    simp only [] at e
    rw [hsplit, atoi_leading_digits ds rest hne hds hrest] at e
    rw [e]
    show max 0 (min INT_MAX _) = min INT_MAX _
    apply max_eq_right
    exact le_min (by decide) (Int.ofNat_nonneg _)

/-- The theorem C17 at two requests in the initial state: `cmd=ccw&speed=fast&steps=-x`,
where neither value has a number at its head, and `cmd=ccw&speed=12abc&steps=7x`, where
the leading digits are `12` and `7`. -/
theorem C17_text_without_number_parses_zero_witness :
    ((http_get_handler init
        "GET /motor?cmd=ccw&speed=fast&steps=-x HTTP/1.1".toList).1.step_delay_ms = 20 ∧
      (http_get_handler init
        "GET /motor?cmd=ccw&speed=fast&steps=-x HTTP/1.1".toList).1.target_steps = 0) ∧
    (atoi ("12".toList ++ "abc".toList) =
        min INT_MAX
          ((Nat.ofDigits 10 (("12".toList.map (fun c => c.toNat - 48)).reverse) : Nat) : Int) ∧
      (http_get_handler init
        "GET /motor?cmd=ccw&speed=12abc&steps=7x HTTP/1.1".toList).1.step_delay_ms =
        speed_to_delay (min 100 (max 1 (min INT_MAX
          ((Nat.ofDigits 10 (("12".toList.map (fun c => c.toNat - 48)).reverse) : Nat)
            : Int)))) ∧
      (http_get_handler init
        "GET /motor?cmd=ccw&speed=12abc&steps=7x HTTP/1.1".toList).1.target_steps =
        min INT_MAX
          ((Nat.ofDigits 10 (("7".toList.map (fun c => c.toNat - 48)).reverse) : Nat)
            : Int)) :=
  have h := C17_text_without_number_parses_zero init
    "GET /motor?cmd=ccw&speed=fast&steps=-x HTTP/1.1".toList
    "cmd=ccw&speed=fast&steps=-x HTTP/1.1".toList false (by decide) (by decide) (by decide)
  have g := C17_text_without_number_parses_zero init
    "GET /motor?cmd=ccw&speed=12abc&steps=7x HTTP/1.1".toList
    "cmd=ccw&speed=12abc&steps=7x HTTP/1.1".toList false (by decide) (by decide) (by decide)
  ⟨⟨h.1.2.1 "speed=fast&steps=-x HTTP/1.1".toList (by decide) (by decide),
    h.1.2.2 "steps=-x HTTP/1.1".toList (by decide) (by decide)⟩,
   ⟨g.2.1 "12".toList "abc".toList (by decide) (by decide) (by decide),
    g.2.2.1 "speed=12abc&steps=7x HTTP/1.1".toList "12".toList "abc&steps=7x HTTP/1.1".toList
      (by decide) (by decide) (by decide) (by decide) (by decide),
    g.2.2.2 "steps=7x HTTP/1.1".toList "7".toList "x HTTP/1.1".toList
      (by decide) (by decide) (by decide) (by decide) (by decide)⟩⟩

end Stepper
